import Mathlib

/-!
Verification of the ChainXchange trading core.

The JavaScript source is shallowly embedded: JS numbers that hold money
and quantities become `Rat`; Mongo documents become Lean structures;
the per-user mutable state (User.wallet, Portfolio rows, Transaction
rows) becomes an explicit `UserState` threaded through the operations;
fallible handlers return `Except`.  Display-only fields of the source
documents (coin name, image, symbol) do not interact with any
balance/position/ledger logic and are omitted.
-/

namespace ChainXchange

/-- A Portfolio document for one (userId, coinId) pair
(src/models + the shape written by the handlers). -/
structure Position where
  quantity : Rat
  averageBuyPrice : Rat
deriving DecidableEq, Repr

/-- Transaction side: the `type` field, 'buy' or 'sell'. -/
inductive Side where
  | buy
  | sell
deriving DecidableEq, Repr

/-- A Transaction document as created by the handlers.  `total` models
`totalCost` (buy paths, controller sell) and `sellValue` (router sell). -/
structure LedgerEntry where
  side : Side
  coinId : String
  quantity : Rat
  price : Rat
  total : Rat
deriving DecidableEq, Repr

/-- The mutable per-user state touched by the trading handlers:
the User.wallet balance, the Portfolio rows keyed by coinId, and the
appended Transaction rows (newest first). -/
structure UserState where
  wallet : Rat
  positions : List (String × Position)
  ledger : List LedgerEntry
deriving DecidableEq, Repr

/-- Errors thrown by the trading handlers. -/
inductive TradeError where
  | missingFields
  | invalidValues
  | insufficientFunds
  | insufficientHoldings
  | portfolioNotFound
deriving DecidableEq, Repr

/-- `Portfolio.findOne({ userId, coinId })`: first row with the given coinId. -/
def findPos (ps : List (String × Position)) (c : String) : Option Position :=
  match ps with
  | [] => none
  | (c', p) :: rest => if c' = c then some p else findPos rest c

/-- `Portfolio.findOneAndUpdate({ userId, coinId }, ...)`: replace the row
for `c` by `p` (rows are unique per coinId). -/
def updatePos (ps : List (String × Position)) (c : String) (p : Position) :
    List (String × Position) :=
  match ps with
  | [] => []
  | (c', p') :: rest =>
      if c' = c then (c, p) :: updatePos rest c p
      else (c', p') :: updatePos rest c p

/-- `Portfolio.deleteOne({ userId, coinId })` (rows are unique per coinId). -/
def erasePos (ps : List (String × Position)) (c : String) :
    List (String × Position) :=
  match ps with
  | [] => []
  | (c', p') :: rest =>
      if c' = c then erasePos rest c
      else (c', p') :: erasePos rest c

/-- The buy handler (src/routes/crypto.js router.post('/buy') and
CryptoController.buyCrypto, which coincide on wallet/position/ledger
logic).  Validation, the balance check, the wallet debit, the position
upsert with the recomputed average buy price, and the transaction append. -/
def buyCrypto (s : UserState) (coinId : String) (quantityNum priceNum : Rat) :
    Except TradeError UserState :=
  if quantityNum ≤ 0 ∨ priceNum ≤ 0 then
    Except.error TradeError.invalidValues
  else
    let totalCost := quantityNum * priceNum
    if s.wallet < totalCost then
      Except.error TradeError.insufficientFunds
    else
      let wallet' := s.wallet - totalCost
      let entry : LedgerEntry :=
        ⟨Side.buy, coinId, quantityNum, priceNum, totalCost⟩
      match findPos s.positions coinId with
      | some p =>
          let newTotalQuantity := p.quantity + quantityNum
          let newAverageBuyPrice :=
            (p.quantity * p.averageBuyPrice + totalCost) / newTotalQuantity
          Except.ok
            ⟨wallet',
             updatePos s.positions coinId
               ⟨p.quantity + quantityNum, newAverageBuyPrice⟩,
             entry :: s.ledger⟩
      | none =>
          Except.ok
            ⟨wallet',
             (coinId, ⟨quantityNum, priceNum⟩) :: s.positions,
             entry :: s.ledger⟩

/-- The controller sell handler (CryptoController.sellCrypto):
caller-supplied price, holdings check, wallet credit, decrement or
delete of the position, transaction append. -/
def sellCrypto (s : UserState) (coinId : String) (quantityNum priceNum : Rat) :
    Except TradeError UserState :=
  if quantityNum ≤ 0 ∨ priceNum ≤ 0 then
    Except.error TradeError.invalidValues
  else
    let totalEarnings := quantityNum * priceNum
    match findPos s.positions coinId with
    | none => Except.error TradeError.insufficientHoldings
    | some p =>
        if p.quantity < quantityNum then
          Except.error TradeError.insufficientHoldings
        else
          let wallet' := s.wallet + totalEarnings
          let remainingQuantity := p.quantity - quantityNum
          let positions' :=
            if remainingQuantity ≤ 0 then
              erasePos s.positions coinId
            else
              updatePos s.positions coinId
                ⟨p.quantity - quantityNum, p.averageBuyPrice⟩
          Except.ok
            ⟨wallet', positions',
             ⟨Side.sell, coinId, quantityNum, priceNum, totalEarnings⟩ ::
               s.ledger⟩

/-- The body of a POST /crypto/sell request.  The handler destructures
only `coinId` and `quantity`; a `price` field, if sent, is never read. -/
structure SellRequest where
  coinId : String
  quantity : Rat
  price : Option Rat
deriving DecidableEq, Repr

/-- The router sell handler (src/routes/crypto.js router.post('/sell')).
It fetches the current price from the gateway
(`fetchCoinGeckoDataWithCache(... simple/price ...)`, passed in here as
`gatewayPrice`), credits `sellValue = quantity * currentPrice`, deletes
the row when selling the exact held quantity, and records the gateway
price in the transaction. -/
def routerSell (s : UserState) (req : SellRequest) (gatewayPrice : Rat) :
    Except TradeError UserState :=
  if req.quantity ≤ 0 then
    Except.error TradeError.invalidValues
  else
    match findPos s.positions req.coinId with
    | none => Except.error TradeError.portfolioNotFound
    | some p =>
        if p.quantity < req.quantity then
          Except.error TradeError.insufficientHoldings
        else
          let currentPrice := gatewayPrice
          let sellValue := req.quantity * currentPrice
          let wallet' := s.wallet + sellValue
          let positions' :=
            if p.quantity = req.quantity then
              erasePos s.positions req.coinId
            else
              updatePos s.positions req.coinId
                ⟨p.quantity - req.quantity, p.averageBuyPrice⟩
          Except.ok
            ⟨wallet', positions',
             ⟨Side.sell, req.coinId, req.quantity, currentPrice, sellValue⟩ ::
               s.ledger⟩

/-- The state a handler leaves behind: the new state on success, the
original state untouched when the handler throws. -/
def applyBuy (s : UserState) (c : String) (q p : Rat) : UserState :=
  match buyCrypto s c q p with
  | Except.ok s' => s'
  | Except.error _ => s

/-- One trading request against a user's state: the buy handler, the
controller sell handler, or the router sell handler (with the price the
gateway returned for it). -/
inductive TradeOp where
  | buy (c : String) (q p : Rat)
  | sell (c : String) (q p : Rat)
  | rsell (req : SellRequest) (gatewayPrice : Rat)
deriving DecidableEq, Repr

/-- Run one request: a throwing handler leaves the state unchanged. -/
def applyOp (s : UserState) (op : TradeOp) : UserState :=
  match op with
  | TradeOp.buy c q p =>
      match buyCrypto s c q p with
      | Except.ok s' => s'
      | Except.error _ => s
  | TradeOp.sell c q p =>
      match sellCrypto s c q p with
      | Except.ok s' => s'
      | Except.error _ => s
  | TradeOp.rsell req gp =>
      match routerSell s req gp with
      | Except.ok s' => s'
      | Except.error _ => s

/-- Every stored Portfolio row has strictly positive quantity. -/
def PositionsPos (s : UserState) : Prop :=
  ∀ kv ∈ s.positions, 0 < kv.2.quantity

instance (s : UserState) : Decidable (PositionsPos s) :=
  List.decidableBAll _ s.positions

/-! ## Portfolio valuation (CryptoController.showPortfolio) -/

/-- One coin's record inside the gateway's
`/simple/price?ids=...&include_24hr_change=true` response. -/
structure MarketEntry where
  usd : Option Rat
  usd24hChange : Option Rat
deriving DecidableEq, Repr

/-- JS `x || y` where `x` is a possibly-undefined number: `undefined`
and `0` are falsy. -/
def jsOr (x : Option Rat) (y : Rat) : Rat :=
  match x with
  | some v => if v = 0 then y else v
  | none => y

/-- One row of the rendered portfolio (the priced fields the controller
computes per holding; display name/image/symbol are omitted). -/
structure HoldingView where
  coinId : String
  quantity : Rat
  averageBuyPrice : Rat
  currentPrice : Rat
  currentValue : Rat
  totalInvested : Rat
  profitLoss : Rat
  profitLossPercentage : Rat
  change24h : Rat
deriving DecidableEq, Repr

/-- The object rendered (and cached) by showPortfolio.  These are all
the valuation fields it carries; in particular there is no field that
flags a degraded (cost-basis) valuation. -/
structure PortfolioView where
  holdings : List HoldingView
  portfolioValue : Rat
  totalProfitLoss : Rat
  totalProfitLossPercentage : Rat
deriving DecidableEq, Repr

/-- The per-holding computation on the live path (market data fetched
successfully): `currentPrice = marketData[coinId]?.usd || averageBuyPrice`,
and the derived value/invested/profit fields. -/
def liveHolding (md : String → Option MarketEntry) (c : String) (p : Position) :
    HoldingView :=
  let currentPrice := jsOr ((md c).bind MarketEntry.usd) p.averageBuyPrice
  let currentValue := p.quantity * currentPrice
  let totalInvested := p.quantity * p.averageBuyPrice
  let profitLoss := currentValue - totalInvested
  let profitLossPercentage :=
    if 0 < totalInvested then profitLoss / totalInvested * 100 else 0
  ⟨c, p.quantity, p.averageBuyPrice, currentPrice, currentValue,
   totalInvested, profitLoss, profitLossPercentage,
   jsOr ((md c).bind MarketEntry.usd24hChange) 0⟩

/-- The per-holding computation on the catch path (gateway failed):
`currentPrice: holding.averageBuyPrice`, profitLoss 0, percentage 0. -/
def fallbackHolding (c : String) (p : Position) : HoldingView :=
  ⟨c, p.quantity, p.averageBuyPrice, p.averageBuyPrice,
   p.quantity * p.averageBuyPrice, p.quantity * p.averageBuyPrice, 0, 0, 0⟩

/-- CryptoController.showPortfolio's valuation: `gateway` is `some md`
when the CoinGecko fetches succeed and `none` when they throw.  On the
live path the aggregate totals are recomputed from the holdings; on the
catch path only the holdings are replaced and the totals keep their
initial value 0.  With no holdings the gateway is never consulted. -/
def showPortfolio (positions : List (String × Position))
    (gateway : Option (String → Option MarketEntry)) : PortfolioView :=
  if 0 < positions.length then
    match gateway with
    | some md =>
        let hs := positions.map (fun kv => liveHolding md kv.1 kv.2)
        let totalPortfolioValue := (hs.map (fun h => h.currentValue)).sum
        let totalInvested := (hs.map (fun h => h.totalInvested)).sum
        let totalProfitLoss := totalPortfolioValue - totalInvested
        let totalProfitLossPercentage :=
          if 0 < totalInvested then totalProfitLoss / totalInvested * 100
          else 0
        ⟨hs, totalPortfolioValue, totalProfitLoss, totalProfitLossPercentage⟩
    | none =>
        ⟨positions.map (fun kv => fallbackHolding kv.1 kv.2), 0, 0, 0⟩
  else
    ⟨[], 0, 0, 0⟩

/-! ## The CoinGecko request queue worker (src/utils/geckoApi.js) -/

/-- What one upstream attempt yields, as the worker's try/catch sees it:
a 2xx with a payload (possibly falsy/empty), a 429 with an optional
Retry-After header (seconds), or any other axios error. -/
inductive UpstreamResponse where
  | success (payload : Nat)
  | emptyPayload
  | rateLimited (retryAfter : Option Nat)
  | otherFailure (code : Nat)
deriving DecidableEq, Repr

/-- The errors the worker can throw. -/
inductive QueueError where
  | empty
  | rateLimit (retryAfter : Option Nat)
  | other (code : Nat)
deriving DecidableEq, Repr

instance {ε α : Type} [DecidableEq ε] [DecidableEq α] :
    DecidableEq (Except ε α) := fun a b =>
  match a, b with
  | Except.ok x, Except.ok y =>
      if h : x = y then isTrue (congrArg Except.ok h)
      else isFalse (fun hh => h (Except.ok.inj hh))
  | Except.error x, Except.error y =>
      if h : x = y then isTrue (congrArg Except.error h)
      else isFalse (fun hh => h (Except.error.inj hh))
  | Except.ok _, Except.error _ => isFalse (fun hh => Except.noConfusion hh)
  | Except.error _, Except.ok _ => isFalse (fun hh => Except.noConfusion hh)

/-- The observable outcome of processing one queued task: how many
upstream attempts were made, the seconds slept before each retry check,
in order, and the value returned or error thrown.  A resolved `null`
result is `Except.ok none`. -/
structure QueueOutcome where
  attemptsMade : Nat
  sleeps : List Nat
  result : Except QueueError (Option Nat)
deriving DecidableEq, Repr

/-- Total attempts bound in the worker loop. -/
def maxAttempts : Nat := 3

/-- The worker's `while (attempt < maxAttempts)` loop.  `made` attempts
are already done, `remaining = maxAttempts - made`; `sleepsRev` is the
reversed sleep log and `lastError` the last caught error.  On a 429 the
worker sleeps `headers[retry-after] || 10` seconds and retries; any
other failure is rethrown at once; success with a truthy payload breaks
out; when the loop exhausts, the last error (always set here by a 429)
is thrown, else the null result is returned. -/
def geckoWorkerLoop (responses : Nat → UpstreamResponse) :
    Nat → Nat → List Nat → Option QueueError → QueueOutcome
  | made, 0, sleepsRev, lastError =>
      ⟨made, sleepsRev.reverse,
       match lastError with
       | some e => Except.error e
       | none => Except.ok none⟩
  | made, remaining + 1, sleepsRev, _ =>
      let attempt := made + 1
      match responses attempt with
      | UpstreamResponse.success d =>
          ⟨attempt, sleepsRev.reverse, Except.ok (some d)⟩
      | UpstreamResponse.emptyPayload =>
          ⟨attempt, sleepsRev.reverse, Except.error QueueError.empty⟩
      | UpstreamResponse.otherFailure code =>
          ⟨attempt, sleepsRev.reverse, Except.error (QueueError.other code)⟩
      | UpstreamResponse.rateLimited ra =>
          geckoWorkerLoop responses attempt remaining
            (ra.getD 10 :: sleepsRev) (some (QueueError.rateLimit ra))

/-- Process one task through the geckoQueue worker, `responses n` being
what the upstream returns on the n-th attempt (1-based). -/
def processTask (responses : Nat → UpstreamResponse) : QueueOutcome :=
  geckoWorkerLoop responses 0 maxAttempts [] none

/-! ## The TTL cache (fetchCoinGeckoDataWithCache) -/

/-- One slot of the module-level `cache` object. -/
structure CacheEntry where
  data : Nat
  timestamp : Nat
deriving DecidableEq, Repr

/-- Errors thrown out of fetchCoinGeckoDataWithCache. -/
inductive GeckoError where
  | fetchFailed (e : QueueError)
  | noData
deriving DecidableEq, Repr

/-- The observable outcome of one fetchCoinGeckoDataWithCache call:
the value/error, the cache afterwards, and whether the producer
(fetchCoinGeckoData, i.e. the queued network call) was invoked. -/
structure FetchResult where
  result : Except GeckoError Nat
  cache : List (String × CacheEntry)
  producerInvoked : Bool
deriving DecidableEq, Repr

/-- `cache[cacheKey]` lookup. -/
def findEntry (cache : List (String × CacheEntry)) (k : String) :
    Option CacheEntry :=
  match cache with
  | [] => none
  | (k', e) :: rest => if k' = k then some e else findEntry rest k

/-- `cache[cacheKey] = {...}`: overwrite the slot, or add it. -/
def setEntry (cache : List (String × CacheEntry)) (k : String)
    (e : CacheEntry) : List (String × CacheEntry) :=
  match cache with
  | [] => [(k, e)]
  | (k', e') :: rest =>
      if k' = k then (k, e) :: rest else (k', e') :: setEntry rest k e

/-- The try-block of fetchCoinGeckoDataWithCache, reached when there is
no fresh cache entry: run the producer (the queued network fetch),
throw on falsy data (`!data`, modelled as the payload 0), store truthy
data with the current timestamp, and propagate producer errors leaving
the cache untouched. -/
def fetchPath (cache : List (String × CacheEntry)) (cacheKey : String)
    (now : Nat) (producer : Except QueueError Nat) : FetchResult :=
  match producer with
  | Except.error err =>
      ⟨Except.error (GeckoError.fetchFailed err), cache, true⟩
  | Except.ok d =>
      if d = 0 then ⟨Except.error GeckoError.noData, cache, true⟩
      else ⟨Except.ok d, setEntry cache cacheKey ⟨d, now⟩, true⟩

/-- fetchCoinGeckoDataWithCache: return the cached value when the entry
exists and `now - timestamp < ttlSeconds * 1000`; otherwise take the
fetch path above.  `producer` is the already-determined outcome of the
queued fetch; timestamps are milliseconds. -/
def fetchCoinGeckoDataWithCache (cache : List (String × CacheEntry))
    (cacheKey : String) (ttlSeconds : Nat) (now : Nat)
    (producer : Except QueueError Nat) : FetchResult :=
  match findEntry cache cacheKey with
  | some e =>
      if now - e.timestamp < ttlSeconds * 1000 then
        ⟨Except.ok e.data, cache, false⟩
      else fetchPath cache cacheKey now producer
  | none => fetchPath cache cacheKey now producer

/-! ## Signup (AuthController.signup and routes/auth.js) -/

/-- A User document as created at signup (schema src/models/User.js). -/
structure UserRec where
  username : String
  email : String
  passwordHash : String
  wallet : Rat
deriving DecidableEq, Repr

/-- AuthController.signup / router.post('/signup'): when no user with
the same username or email exists, save a new User with
`wallet: 10000`; otherwise create nothing. -/
def signup (existingUser : Bool) (username email passwordHash : String) :
    Option UserRec :=
  if existingUser then none
  else some ⟨username, email, passwordHash, 10000⟩

/-! ## Association-list lemmas -/

theorem findPos_mem : ∀ {ps : List (String × Position)} {c : String}
    {p : Position}, findPos ps c = some p → (c, p) ∈ ps := by
  intro ps
  induction ps with
  | nil => intro c p h; simp [findPos] at h
  | cons hd tl ih =>
      intro c p h
      obtain ⟨c', p'⟩ := hd
      by_cases hc : c' = c
      · subst hc
        simp [findPos] at h
        subst h
        exact List.mem_cons_self _ _
      · simp [findPos, hc] at h
        exact List.mem_cons_of_mem _ (ih h)

theorem mem_updatePos : ∀ {ps : List (String × Position)} {c : String}
    {pn : Position} {kv : String × Position}, kv ∈ updatePos ps c pn →
    kv = (c, pn) ∨ kv ∈ ps := by
  intro ps
  induction ps with
  | nil => intro c pn kv h; simp [updatePos] at h
  | cons hd tl ih =>
      intro c pn kv h
      obtain ⟨c', p'⟩ := hd
      by_cases hc : c' = c
      · rw [updatePos, if_pos hc] at h
        rcases List.mem_cons.1 h with h | h
        · exact Or.inl h
        · rcases ih h with h | h
          · exact Or.inl h
          · exact Or.inr (List.mem_cons_of_mem _ h)
      · rw [updatePos, if_neg hc] at h
        rcases List.mem_cons.1 h with h | h
        · exact Or.inr (h ▸ List.mem_cons_self _ _)
        · rcases ih h with h | h
          · exact Or.inl h
          · exact Or.inr (List.mem_cons_of_mem _ h)

theorem mem_erasePos : ∀ {ps : List (String × Position)} {c : String}
    {kv : String × Position}, kv ∈ erasePos ps c → kv ∈ ps := by
  intro ps
  induction ps with
  | nil => intro c kv h; simp [erasePos] at h
  | cons hd tl ih =>
      intro c kv h
      obtain ⟨c', p'⟩ := hd
      by_cases hc : c' = c
      · rw [erasePos, if_pos hc] at h
        exact List.mem_cons_of_mem _ (ih h)
      · rw [erasePos, if_neg hc] at h
        rcases List.mem_cons.1 h with h | h
        · exact h ▸ List.mem_cons_self _ _
        · exact List.mem_cons_of_mem _ (ih h)

theorem findPos_updatePos : ∀ {ps : List (String × Position)} {c : String}
    {p0 : Position} (pn : Position), findPos ps c = some p0 →
    findPos (updatePos ps c pn) c = some pn := by
  intro ps
  induction ps with
  | nil => intro c p0 pn h; simp [findPos] at h
  | cons hd tl ih =>
      intro c p0 pn h
      obtain ⟨c', p'⟩ := hd
      by_cases hc : c' = c
      · rw [updatePos, if_pos hc, findPos, if_pos rfl]
      · rw [findPos, if_neg hc] at h
        rw [updatePos, if_neg hc, findPos, if_neg hc]
        exact ih pn h

theorem findPos_erasePos : ∀ (ps : List (String × Position)) (c : String),
    findPos (erasePos ps c) c = none := by
  intro ps
  induction ps with
  | nil => intro c; simp [erasePos, findPos]
  | cons hd tl ih =>
      intro c
      obtain ⟨c', p'⟩ := hd
      by_cases hc : c' = c
      · rw [erasePos, if_pos hc]
        exact ih c
      · rw [erasePos, if_neg hc, findPos, if_neg hc]
        exact ih c

theorem findEntry_setEntry : ∀ (cache : List (String × CacheEntry))
    (k : String) (e : CacheEntry), findEntry (setEntry cache k e) k = some e := by
  intro cache
  induction cache with
  | nil => intro k e; simp [setEntry, findEntry]
  | cons hd tl ih =>
      intro k e
      obtain ⟨k', e'⟩ := hd
      by_cases hk : k' = k
      · simp [setEntry, hk, findEntry]
      · simp [setEntry, hk, findEntry, ih]

/-! ## Inversion lemmas for successful handlers -/

theorem buyCrypto_ok {s : UserState} {c : String} {q p : Rat} {s' : UserState}
    (h : buyCrypto s c q p = Except.ok s') :
    0 < q ∧ 0 < p ∧ q * p ≤ s.wallet ∧
    s'.wallet = s.wallet - q * p ∧
    ((∃ p0, findPos s.positions c = some p0 ∧
        s'.positions = updatePos s.positions c
          ⟨p0.quantity + q,
           (p0.quantity * p0.averageBuyPrice + q * p) / (p0.quantity + q)⟩) ∨
      (findPos s.positions c = none ∧
        s'.positions = (c, ⟨q, p⟩) :: s.positions)) ∧
    s'.ledger = ⟨Side.buy, c, q, p, q * p⟩ :: s.ledger := by
  by_cases h1 : q ≤ 0 ∨ p ≤ 0
  · rw [buyCrypto, if_pos h1] at h; exact absurd h (by simp)
  · push_neg at h1
    rw [buyCrypto, if_neg (by push_neg; exact h1)] at h
    by_cases h2 : s.wallet < q * p
    · rw [if_pos h2] at h; exact absurd h (by simp)
    · rw [if_neg h2] at h
      refine ⟨h1.1, h1.2, not_lt.1 h2, ?_⟩
      cases hfp : findPos s.positions c with
      | some p0 =>
          rw [hfp] at h
          simp only [Except.ok.injEq] at h
          subst h
          exact ⟨rfl, Or.inl ⟨p0, rfl, rfl⟩, rfl⟩
      | none =>
          rw [hfp] at h
          simp only [Except.ok.injEq] at h
          subst h
          exact ⟨rfl, Or.inr ⟨rfl, rfl⟩, rfl⟩

theorem sellCrypto_ok {s : UserState} {c : String} {q p : Rat}
    {s' : UserState} (h : sellCrypto s c q p = Except.ok s') :
    0 < q ∧ 0 < p ∧
    ∃ p0, findPos s.positions c = some p0 ∧ q ≤ p0.quantity ∧
      s'.wallet = s.wallet + q * p ∧
      s'.positions = (if p0.quantity - q ≤ 0 then erasePos s.positions c
        else updatePos s.positions c ⟨p0.quantity - q, p0.averageBuyPrice⟩) ∧
      s'.ledger = ⟨Side.sell, c, q, p, q * p⟩ :: s.ledger := by
  by_cases h1 : q ≤ 0 ∨ p ≤ 0
  · rw [sellCrypto, if_pos h1] at h; exact absurd h (by simp)
  · push_neg at h1
    rw [sellCrypto, if_neg (by push_neg; exact h1)] at h
    cases hfp : findPos s.positions c with
    | none => rw [hfp] at h; exact absurd h (by simp)
    | some p0 =>
        rw [hfp] at h
        simp only at h
        by_cases h2 : p0.quantity < q
        · rw [if_pos h2] at h; exact absurd h (by simp)
        · rw [if_neg h2] at h
          simp only [Except.ok.injEq] at h
          subst h
          exact ⟨h1.1, h1.2, p0, rfl, not_lt.1 h2, rfl, rfl, rfl⟩

theorem routerSell_ok {s : UserState} {req : SellRequest} {gp : Rat}
    {s' : UserState} (h : routerSell s req gp = Except.ok s') :
    0 < req.quantity ∧
    ∃ p0, findPos s.positions req.coinId = some p0 ∧
      req.quantity ≤ p0.quantity ∧
      s'.wallet = s.wallet + req.quantity * gp ∧
      s'.positions = (if p0.quantity = req.quantity then
          erasePos s.positions req.coinId
        else updatePos s.positions req.coinId
          ⟨p0.quantity - req.quantity, p0.averageBuyPrice⟩) ∧
      s'.ledger = ⟨Side.sell, req.coinId, req.quantity, gp,
        req.quantity * gp⟩ :: s.ledger := by
  by_cases h1 : req.quantity ≤ 0
  · rw [routerSell, if_pos h1] at h; exact absurd h (by simp)
  · rw [routerSell, if_neg h1] at h
    cases hfp : findPos s.positions req.coinId with
    | none => rw [hfp] at h; exact absurd h (by simp)
    | some p0 =>
        rw [hfp] at h
        simp only at h
        by_cases h2 : p0.quantity < req.quantity
        · rw [if_pos h2] at h; exact absurd h (by simp)
        · rw [if_neg h2] at h
          simp only [Except.ok.injEq] at h
          subst h
          exact ⟨not_le.1 h1, p0, rfl, not_lt.1 h2, rfl, rfl, rfl⟩

/-! ## C1 -/

/-- C1: a successful buy on an existing position of quantity q0 > 0 and
average cost a0 yields quantity q0 + q and average cost
(q0*a0 + q*p)/(q0 + q); with no prior position it creates one with
quantity q and average cost p; and buy(1,100) then buy(1,200) from a
fresh account yields quantity 2 at average cost 150. -/
theorem buy_average_cost (s : UserState) (c : String) (q p : Rat)
    (hq : 0 < q) (hp : 0 < p) (hw : q * p ≤ s.wallet) :
    (∀ q0 a0, 0 < q0 → findPos s.positions c = some ⟨q0, a0⟩ →
      ∃ s', buyCrypto s c q p = Except.ok s' ∧
        findPos s'.positions c = some ⟨q0 + q, (q0 * a0 + q * p) / (q0 + q)⟩)
  ∧ (findPos s.positions c = none →
      ∃ s', buyCrypto s c q p = Except.ok s' ∧
        findPos s'.positions c = some ⟨q, p⟩)
  ∧ (∃ s1 s2, buyCrypto ⟨10000, [], []⟩ "X" 1 100 = Except.ok s1 ∧
      buyCrypto s1 "X" 1 200 = Except.ok s2 ∧
      findPos s2.positions "X" = some ⟨2, 150⟩) := by
  have hnot1 : ¬(q ≤ 0 ∨ p ≤ 0) := by push_neg; exact ⟨hq, hp⟩
  have hnot2 : ¬(s.wallet < q * p) := not_lt.2 hw
  refine ⟨?_, ?_, ?_⟩
  · intro q0 a0 _ hpos
    refine ⟨⟨s.wallet - q * p,
        updatePos s.positions c ⟨q0 + q, (q0 * a0 + q * p) / (q0 + q)⟩,
        ⟨Side.buy, c, q, p, q * p⟩ :: s.ledger⟩, ?_, ?_⟩
    · rw [buyCrypto, if_neg hnot1]
      rw [if_neg hnot2, hpos]
    · exact findPos_updatePos _ hpos
  · intro hpos
    refine ⟨⟨s.wallet - q * p, (c, ⟨q, p⟩) :: s.positions,
        ⟨Side.buy, c, q, p, q * p⟩ :: s.ledger⟩, ?_, ?_⟩
    · rw [buyCrypto, if_neg hnot1]
      rw [if_neg hnot2, hpos]
    · simp [findPos]
  · refine ⟨⟨9900, [("X", ⟨1, 100⟩)], [⟨Side.buy, "X", 1, 100, 100⟩]⟩,
      ⟨9700, [("X", ⟨2, 150⟩)],
        [⟨Side.buy, "X", 1, 200, 200⟩, ⟨Side.buy, "X", 1, 100, 100⟩]⟩,
      ?_, ?_, ?_⟩
    · norm_num [buyCrypto, findPos]
    · norm_num [buyCrypto, findPos, updatePos]
    · norm_num [findPos]

/-- Witness for C1 at a concrete input. -/
theorem buy_average_cost_witness :
    ∃ s', buyCrypto ⟨1000, [("X", ⟨1, 100⟩)], []⟩ "X" 1 200 = Except.ok s' ∧
      findPos s'.positions "X" = some ⟨2, 150⟩ := by
  obtain ⟨s', h1, h2⟩ :=
    (buy_average_cost ⟨1000, [("X", ⟨1, 100⟩)], []⟩ "X" 1 200 (by norm_num)
        (by norm_num) (by norm_num)).1 1 100 (by norm_num)
      (by norm_num [findPos])
  refine ⟨s', h1, ?_⟩
  rw [h2]
  norm_num

/-! ## C2 -/

/-- C2: a buy with positive quantity and price against a wallet strictly
below quantity*price throws the insufficient-funds error and leaves the
wallet, the positions and the ledger exactly as they were. -/
theorem buy_insufficient_funds_unchanged (s : UserState) (c : String)
    (q p : Rat) (hq : 0 < q) (hp : 0 < p) (hw : s.wallet < q * p) :
    buyCrypto s c q p = Except.error TradeError.insufficientFunds ∧
    applyBuy s c q p = s := by
  have hnot1 : ¬(q ≤ 0 ∨ p ≤ 0) := by push_neg; exact ⟨hq, hp⟩
  have h1 : buyCrypto s c q p = Except.error TradeError.insufficientFunds := by
    simp only [buyCrypto, if_neg hnot1, if_pos hw]
  exact ⟨h1, by simp [applyBuy, h1]⟩

/-- Witness for C2: the spec's own example, cashBalance 50 against
totalCost 100. -/
theorem buy_insufficient_funds_unchanged_witness :
    buyCrypto ⟨50, [], []⟩ "X" 1 100 =
        Except.error TradeError.insufficientFunds ∧
      applyBuy ⟨50, [], []⟩ "X" 1 100 = ⟨50, [], []⟩ :=
  buy_insufficient_funds_unchanged ⟨50, [], []⟩ "X" 1 100 (by norm_num)
    (by norm_num) (by norm_num)

/-! ## C3 -/

/-- C3: from a non-negative wallet, a committed buy debits exactly
quantity*price and only after the balance check passed, and each sell
handler only credits, so every committed mutation leaves the wallet
non-negative (router sell under the upstream contract that gateway
prices are non-negative). -/
theorem cash_balance_nonneg (s : UserState) (h0 : 0 ≤ s.wallet) :
    (∀ c q p s', buyCrypto s c q p = Except.ok s' →
        s'.wallet = s.wallet - q * p ∧ 0 ≤ s'.wallet)
  ∧ (∀ c q p s', sellCrypto s c q p = Except.ok s' →
        s'.wallet = s.wallet + q * p ∧ 0 ≤ s'.wallet)
  ∧ (∀ req gp s', 0 ≤ gp → routerSell s req gp = Except.ok s' →
        s'.wallet = s.wallet + req.quantity * gp ∧ 0 ≤ s'.wallet) := by
  refine ⟨?_, ?_, ?_⟩
  · intro c q p s' h
    obtain ⟨_, _, hw, hwal, _, _⟩ := buyCrypto_ok h
    refine ⟨hwal, ?_⟩
    rw [hwal]
    linarith
  · intro c q p s' h
    obtain ⟨hq, hp, p0, _, _, hwal, _, _⟩ := sellCrypto_ok h
    refine ⟨hwal, ?_⟩
    have hqp : 0 < q * p := mul_pos hq hp
    rw [hwal]
    linarith
  · intro req gp s' hgp h
    obtain ⟨hq, p0, _, _, hwal, _, _⟩ := routerSell_ok h
    refine ⟨hwal, ?_⟩
    have hqp : 0 ≤ req.quantity * gp := mul_nonneg (le_of_lt hq) hgp
    rw [hwal]
    linarith

/-- Witness for C3 at a concrete buy. -/
theorem cash_balance_nonneg_witness :
    (⟨60, [("X", ⟨1, 40⟩)], [⟨Side.buy, "X", 1, 40, 40⟩]⟩ : UserState).wallet =
        (⟨100, [], []⟩ : UserState).wallet - 1 * 40 ∧
      (0 : Rat) ≤
        (⟨60, [("X", ⟨1, 40⟩)], [⟨Side.buy, "X", 1, 40, 40⟩]⟩ :
          UserState).wallet :=
  (cash_balance_nonneg ⟨100, [], []⟩ (by norm_num)).1 "X" 1 40
    ⟨60, [("X", ⟨1, 40⟩)], [⟨Side.buy, "X", 1, 40, 40⟩]⟩
    (by norm_num [buyCrypto, findPos])

/-! ## C4 -/

theorem buy_preserves_positionsPos {s : UserState} {c : String} {q p : Rat}
    {s' : UserState} (hs : PositionsPos s)
    (hb : buyCrypto s c q p = Except.ok s') : PositionsPos s' := by
  obtain ⟨hq, _, _, _, hpos, _⟩ := buyCrypto_ok hb
  intro kv hkv
  rcases hpos with ⟨p0, hfp, hps⟩ | ⟨_, hps⟩
  · rw [hps] at hkv
    rcases mem_updatePos hkv with h | h
    · rw [h]
      have hq0 : 0 < p0.quantity := hs _ (findPos_mem hfp)
      exact add_pos hq0 hq
    · exact hs _ h
  · rw [hps] at hkv
    rcases List.mem_cons.1 hkv with h | h
    · rw [h]; exact hq
    · exact hs _ h

theorem sell_preserves_positionsPos {s : UserState} {c : String} {q p : Rat}
    {s' : UserState} (hs : PositionsPos s)
    (hb : sellCrypto s c q p = Except.ok s') : PositionsPos s' := by
  obtain ⟨_, _, p0, _, _, _, hps, _⟩ := sellCrypto_ok hb
  intro kv hkv
  rw [hps] at hkv
  by_cases hr : p0.quantity - q ≤ 0
  · rw [if_pos hr] at hkv
    exact hs _ (mem_erasePos hkv)
  · rw [if_neg hr] at hkv
    rcases mem_updatePos hkv with h | h
    · rw [h]
      exact not_le.1 hr
    · exact hs _ h

theorem rsell_preserves_positionsPos {s : UserState} {req : SellRequest}
    {gp : Rat} {s' : UserState} (hs : PositionsPos s)
    (hb : routerSell s req gp = Except.ok s') : PositionsPos s' := by
  obtain ⟨_, p0, _, hle, _, hps, _⟩ := routerSell_ok hb
  intro kv hkv
  rw [hps] at hkv
  by_cases hr : p0.quantity = req.quantity
  · rw [if_pos hr] at hkv
    exact hs _ (mem_erasePos hkv)
  · rw [if_neg hr] at hkv
    rcases mem_updatePos hkv with h | h
    · rw [h]
      exact sub_pos.2 (lt_of_le_of_ne hle (fun hh => hr hh.symm))
    · exact hs _ h

theorem applyOp_preserves_positionsPos (s : UserState) (hs : PositionsPos s)
    (op : TradeOp) : PositionsPos (applyOp s op) := by
  cases op with
  | buy c q p =>
      cases hb : buyCrypto s c q p with
      | error e => simpa [applyOp, hb] using hs
      | ok s' =>
          have hres : applyOp s (TradeOp.buy c q p) = s' := by
            simp [applyOp, hb]
          rw [hres]
          exact buy_preserves_positionsPos hs hb
  | sell c q p =>
      cases hb : sellCrypto s c q p with
      | error e => simpa [applyOp, hb] using hs
      | ok s' =>
          have hres : applyOp s (TradeOp.sell c q p) = s' := by
            simp [applyOp, hb]
          rw [hres]
          exact sell_preserves_positionsPos hs hb
  | rsell req gp =>
      cases hb : routerSell s req gp with
      | error e => simpa [applyOp, hb] using hs
      | ok s' =>
          have hres : applyOp s (TradeOp.rsell req gp) = s' := by
            simp [applyOp, hb]
          rw [hres]
          exact rsell_preserves_positionsPos hs hb

theorem foldl_applyOp_preserves (ops : List TradeOp) :
    ∀ s : UserState, PositionsPos s →
      PositionsPos (List.foldl applyOp s ops) := by
  induction ops with
  | nil => intro s hs; exact hs
  | cons op rest ih =>
      intro s hs
      exact ih _ (applyOp_preserves_positionsPos s hs op)

/-- C4: starting from a state whose rows all have positive quantity,
any sequence of buy/sell requests preserves that (no row ever exists
with quantity ≤ 0), and a controller sell of exactly the held quantity
deletes the row outright. -/
theorem positions_positive_after_ops (s : UserState) (hs : PositionsPos s) :
    (∀ ops : List TradeOp, PositionsPos (List.foldl applyOp s ops))
  ∧ (∀ c q a pr s', findPos s.positions c = some ⟨q, a⟩ →
      sellCrypto s c q pr = Except.ok s' →
      findPos s'.positions c = none) := by
  constructor
  · intro ops
    exact foldl_applyOp_preserves ops s hs
  · intro c q a pr s' hfp hsell
    obtain ⟨_, _, p0, hfp', _, _, hps, _⟩ := sellCrypto_ok hsell
    rw [hfp] at hfp'
    have hp0 : p0 = ⟨q, a⟩ := (Option.some.inj hfp').symm
    subst hp0
    rw [hps, if_pos (by simp)]
    exact findPos_erasePos s.positions c

/-- Witness for C4 at a concrete state and request sequence. -/
theorem positions_positive_after_ops_witness :
    PositionsPos (List.foldl applyOp ⟨10000, [("X", ⟨2, 50⟩)], []⟩
      [TradeOp.buy "X" 1 100, TradeOp.sell "X" 2 60]) :=
  (positions_positive_after_ops ⟨10000, [("X", ⟨2, 50⟩)], []⟩
    (by norm_num [PositionsPos])).1
    [TradeOp.buy "X" 1 100, TradeOp.sell "X" 2 60]

/-! ## C5 -/

/-- C5: a sell of 0 < q strictly less than the held quantity leaves the
average cost untouched, decreases the held quantity by exactly q, and
credits the wallet by exactly q*price. -/
theorem sell_keeps_cost_basis (s : UserState) (c : String) (q p q0 a0 : Rat)
    (hq : 0 < q) (hp : 0 < p)
    (hpos : findPos s.positions c = some ⟨q0, a0⟩) (hlt : q < q0) :
    ∃ s', sellCrypto s c q p = Except.ok s' ∧
      findPos s'.positions c = some ⟨q0 - q, a0⟩ ∧
      s'.wallet = s.wallet + q * p := by
  have hnot1 : ¬(q ≤ 0 ∨ p ≤ 0) := by push_neg; exact ⟨hq, hp⟩
  refine ⟨⟨s.wallet + q * p, updatePos s.positions c ⟨q0 - q, a0⟩,
      ⟨Side.sell, c, q, p, q * p⟩ :: s.ledger⟩, ?_, ?_, rfl⟩
  · rw [sellCrypto, if_neg hnot1, hpos]
    simp only
    rw [if_neg (not_lt.2 (le_of_lt hlt) : ¬q0 < q),
      if_neg (not_le.2 (sub_pos.2 hlt) : ¬q0 - q ≤ 0)]
  · exact findPos_updatePos _ hpos

/-- Witness for C5: the spec's example sell(user, "X", 1, 500) on a
position of quantity 2 at average cost 150. -/
theorem sell_keeps_cost_basis_witness :
    ∃ s', sellCrypto ⟨9700, [("X", ⟨2, 150⟩)], []⟩ "X" 1 500 =
        Except.ok s' ∧
      findPos s'.positions "X" = some ⟨1, 150⟩ ∧ s'.wallet = 10200 := by
  obtain ⟨s', h1, h2, h3⟩ :=
    sell_keeps_cost_basis ⟨9700, [("X", ⟨2, 150⟩)], []⟩ "X" 1 500 2 150
      (by norm_num) (by norm_num) (by norm_num [findPos]) (by norm_num)
  refine ⟨s', h1, ?_, ?_⟩
  · rw [h2]; norm_num
  · rw [h3]; norm_num

/-! ## C6 -/

/-- C6 counterexample: the router sell handler applies the gateway
price, not the caller-supplied one.  With a held position of 2 units,
a request whose body carries price 100 and a gateway quote of 200, the
wallet is credited 1*200 = 200 and the transaction records price 200,
although the caller supplied 100 (and 200 ≠ 100). -/
theorem routerSell_gateway_price_counterexample :
    (⟨"bitcoin", 1, some 100⟩ : SellRequest).price = some 100 ∧
    routerSell ⟨0, [("bitcoin", ⟨2, 50⟩)], []⟩ ⟨"bitcoin", 1, some 100⟩ 200 =
      Except.ok ⟨200, [("bitcoin", ⟨1, 50⟩)],
        [⟨Side.sell, "bitcoin", 1, 200, 200⟩]⟩ ∧
    (200 : Rat) ≠ 100 := by
  refine ⟨rfl, ?_, by norm_num⟩
  norm_num [routerSell, findPos, updatePos, erasePos]

/-- C6 amended: the buy handlers and the controller sell handler apply
exactly the caller-supplied price to the wallet delta, the position
update (the caller price is the cost basis of a created position and
enters the recomputed average of an existing one; a sell's position
decrement keeps the stored cost basis and involves no price at all),
and the ledger entry; the router sell handler instead applies the price
fetched from the market-data gateway to its wallet credit and ledger
entry, whatever the request body carried. -/
theorem trade_price_provenance (s : UserState) (c : String) (q p : Rat) :
    (∀ s', buyCrypto s c q p = Except.ok s' →
        s'.wallet = s.wallet - q * p ∧
        ((∃ p0, findPos s.positions c = some p0 ∧
            s'.positions = updatePos s.positions c
              ⟨p0.quantity + q,
               (p0.quantity * p0.averageBuyPrice + q * p) /
                 (p0.quantity + q)⟩) ∨
          (findPos s.positions c = none ∧
            s'.positions = (c, ⟨q, p⟩) :: s.positions)) ∧
        s'.ledger = ⟨Side.buy, c, q, p, q * p⟩ :: s.ledger)
  ∧ (∀ s', sellCrypto s c q p = Except.ok s' →
        s'.wallet = s.wallet + q * p ∧
        (∃ p0, findPos s.positions c = some p0 ∧
          s'.positions = (if p0.quantity - q ≤ 0 then
              erasePos s.positions c
            else updatePos s.positions c
              ⟨p0.quantity - q, p0.averageBuyPrice⟩)) ∧
        s'.ledger = ⟨Side.sell, c, q, p, q * p⟩ :: s.ledger)
  ∧ (∀ req gp s', routerSell s req gp = Except.ok s' →
        s'.wallet = s.wallet + req.quantity * gp ∧
        s'.ledger = ⟨Side.sell, req.coinId, req.quantity, gp,
          req.quantity * gp⟩ :: s.ledger) := by
  refine ⟨?_, ?_, ?_⟩
  · intro s' h
    obtain ⟨_, _, _, hwal, hpos, hled⟩ := buyCrypto_ok h
    exact ⟨hwal, hpos, hled⟩
  · intro s' h
    obtain ⟨_, _, p0, hfp, _, hwal, hps, hled⟩ := sellCrypto_ok h
    exact ⟨hwal, ⟨p0, hfp, hps⟩, hled⟩
  · intro req gp s' h
    obtain ⟨_, p0, _, _, hwal, _, hled⟩ := routerSell_ok h
    exact ⟨hwal, hled⟩

/-- Witness for the amended C6 at a concrete router sell. -/
theorem trade_price_provenance_witness :
    (⟨200, [("bitcoin", ⟨1, 50⟩)], [⟨Side.sell, "bitcoin", 1, 200, 200⟩]⟩ :
        UserState).wallet =
      (⟨0, [("bitcoin", ⟨2, 50⟩)], []⟩ : UserState).wallet +
        (⟨"bitcoin", 1, some 100⟩ : SellRequest).quantity * 200 ∧
    (⟨200, [("bitcoin", ⟨1, 50⟩)], [⟨Side.sell, "bitcoin", 1, 200, 200⟩]⟩ :
        UserState).ledger =
      ⟨Side.sell, (⟨"bitcoin", 1, some 100⟩ : SellRequest).coinId,
        (⟨"bitcoin", 1, some 100⟩ : SellRequest).quantity, 200,
        (⟨"bitcoin", 1, some 100⟩ : SellRequest).quantity * 200⟩ ::
        (⟨0, [("bitcoin", ⟨2, 50⟩)], []⟩ : UserState).ledger :=
  (trade_price_provenance ⟨0, [("bitcoin", ⟨2, 50⟩)], []⟩ "bitcoin" 1 1).2.2
    ⟨"bitcoin", 1, some 100⟩ 200
    ⟨200, [("bitcoin", ⟨1, 50⟩)], [⟨Side.sell, "bitcoin", 1, 200, 200⟩]⟩
    (by norm_num [routerSell, findPos, updatePos])

/-! ## C7 -/

/-- C7, evaluated at the failing input: with a single position of
quantity 1 at average cost 100 and a failed gateway fetch, the request
succeeds and the holding is valued at its own average cost with
profitLoss 0 and profitLossPercentage 0 — but the resulting view is the
plain record below, which carries no degraded-result flag of any kind
(and whose aggregate totals are left at their initial 0). -/
theorem showPortfolio_degraded_no_flag :
    showPortfolio [("bitcoin", ⟨1, 100⟩)] none =
      ⟨[⟨"bitcoin", 1, 100, 100, 100, 100, 0, 0, 0⟩], 0, 0, 0⟩ := by
  norm_num [showPortfolio, fallbackHolding]

/-! ## C8 -/

theorem geckoWorkerLoop_rateLimited (responses : Nat → UpstreamResponse)
    (made rem : Nat) (sl : List Nat) (lastError : Option QueueError)
    (ra' : Option Nat)
    (h : responses (made + 1) = UpstreamResponse.rateLimited ra') :
    geckoWorkerLoop responses made (rem + 1) sl lastError =
      geckoWorkerLoop responses (made + 1) rem (ra'.getD 10 :: sl)
        (some (QueueError.rateLimit ra')) := by
  simp only [geckoWorkerLoop]
  rw [h]

/-- C8: a task whose every upstream attempt is rate-limited gets exactly
3 attempts, never a fourth; the worker sleeps the Retry-After hint of
each 429 (defaulting to 10 seconds when the header is absent) before
re-checking the loop, and the task fails with the last observed
rate-limit error. -/
theorem retry_bound_three_attempts (responses : Nat → UpstreamResponse)
    (ra : Nat → Option Nat)
    (h : ∀ n, responses n = UpstreamResponse.rateLimited (ra n)) :
    processTask responses =
      ⟨3, [(ra 1).getD 10, (ra 2).getD 10, (ra 3).getD 10],
        Except.error (QueueError.rateLimit (ra 3))⟩ := by
  have e0 : processTask responses = geckoWorkerLoop responses 0 3 [] none :=
    rfl
  rw [e0]
  calc geckoWorkerLoop responses 0 3 [] none
      = geckoWorkerLoop responses 1 2 [(ra 1).getD 10]
          (some (QueueError.rateLimit (ra 1))) :=
        geckoWorkerLoop_rateLimited responses 0 2 [] none (ra 1) (h 1)
    _ = geckoWorkerLoop responses 2 1 [(ra 2).getD 10, (ra 1).getD 10]
          (some (QueueError.rateLimit (ra 2))) :=
        geckoWorkerLoop_rateLimited responses 1 1 _ _ (ra 2) (h 2)
    _ = geckoWorkerLoop responses 3 0
          [(ra 3).getD 10, (ra 2).getD 10, (ra 1).getD 10]
          (some (QueueError.rateLimit (ra 3))) :=
        geckoWorkerLoop_rateLimited responses 2 0 _ _ (ra 3) (h 3)
    _ = ⟨3, [(ra 1).getD 10, (ra 2).getD 10, (ra 3).getD 10],
          Except.error (QueueError.rateLimit (ra 3))⟩ := rfl

/-- Witness for C8: an upstream that always answers 429 with no
Retry-After header. -/
theorem retry_bound_three_attempts_witness :
    processTask (fun _ => UpstreamResponse.rateLimited none) =
      ⟨3, [10, 10, 10], Except.error (QueueError.rateLimit none)⟩ :=
  retry_bound_three_attempts (fun _ => UpstreamResponse.rateLimited none)
    (fun _ => none) (fun _ => rfl)

/-! ## C9 -/

theorem fetchPath_invoked (cache : List (String × CacheEntry))
    (cacheKey : String) (now : Nat) (producer : Except QueueError Nat) :
    (fetchPath cache cacheKey now producer).producerInvoked = true := by
  cases producer with
  | error err => rfl
  | ok d =>
      simp only [fetchPath]
      by_cases hd : d = 0
      · rw [if_pos hd]
      · rw [if_neg hd]

theorem fetchPath_ok_store (cache : List (String × CacheEntry))
    (cacheKey : String) (now : Nat) (d : Nat) (hd : d ≠ 0) :
    fetchPath cache cacheKey now (Except.ok d) =
      ⟨Except.ok d, setEntry cache cacheKey ⟨d, now⟩, true⟩ := by
  simp only [fetchPath]
  rw [if_neg hd]

theorem fetchPath_result_ok (cache : List (String × CacheEntry))
    (cacheKey : String) (now : Nat) (producer : Except QueueError Nat)
    (v : Nat) (h : (fetchPath cache cacheKey now producer).result =
      Except.ok v) : producer = Except.ok v ∧ v ≠ 0 := by
  cases producer with
  | error err => simp [fetchPath] at h
  | ok d =>
      simp only [fetchPath] at h
      by_cases hd : d = 0
      · rw [if_pos hd] at h
        simp at h
      · rw [if_neg hd] at h
        have hdv : d = v := by simpa using h
        subst hdv
        exact ⟨rfl, hd⟩

/-- C9: a cached entry younger than the TTL is returned without
invoking the producer; a missing or stale entry makes the call invoke
the producer and, on truthy success, overwrite the slot with the
current timestamp; hence two calls on the same key within the TTL, the
first of which returns successfully, invoke the producer at most once. -/
theorem cache_freshness (cache : List (String × CacheEntry)) (key : String)
    (ttl now1 now2 : Nat) (p1 p2 : Except QueueError Nat)
    (h12 : now1 ≤ now2) (hwin : now2 - now1 < ttl * 1000) :
    (∀ e, findEntry cache key = some e → now1 - e.timestamp < ttl * 1000 →
      fetchCoinGeckoDataWithCache cache key ttl now1 p1 =
        ⟨Except.ok e.data, cache, false⟩)
  ∧ ((findEntry cache key = none ∨
      ∃ e, findEntry cache key = some e ∧ ttl * 1000 ≤ now1 - e.timestamp) →
      (fetchCoinGeckoDataWithCache cache key ttl now1 p1).producerInvoked =
        true ∧
      ∀ d, p1 = Except.ok d → d ≠ 0 →
        fetchCoinGeckoDataWithCache cache key ttl now1 p1 =
          ⟨Except.ok d, setEntry cache key ⟨d, now1⟩, true⟩)
  ∧ ((∃ v, (fetchCoinGeckoDataWithCache cache key ttl now1 p1).result =
        Except.ok v) →
      ¬((fetchCoinGeckoDataWithCache cache key ttl now1 p1).producerInvoked
          = true ∧
        (fetchCoinGeckoDataWithCache
          (fetchCoinGeckoDataWithCache cache key ttl now1 p1).cache key ttl
          now2 p2).producerInvoked = true)) := by
  have hitCase : ∀ e, findEntry cache key = some e →
      now1 - e.timestamp < ttl * 1000 →
      fetchCoinGeckoDataWithCache cache key ttl now1 p1 =
        ⟨Except.ok e.data, cache, false⟩ := by
    intro e he hfresh
    rw [fetchCoinGeckoDataWithCache.eq_def, he]
    simp only
    rw [if_pos hfresh]
  have missStep : (findEntry cache key = none ∨
      ∃ e, findEntry cache key = some e ∧ ttl * 1000 ≤ now1 - e.timestamp) →
      fetchCoinGeckoDataWithCache cache key ttl now1 p1 =
        fetchPath cache key now1 p1 := by
    intro hmiss
    rcases hmiss with hnone | ⟨e, he, hstale⟩
    · rw [fetchCoinGeckoDataWithCache.eq_def, hnone]
    · rw [fetchCoinGeckoDataWithCache.eq_def, he]
      simp only
      rw [if_neg (not_lt.2 hstale)]
  refine ⟨hitCase, ?_, ?_⟩
  · intro hmiss
    rw [missStep hmiss]
    refine ⟨fetchPath_invoked cache key now1 p1, ?_⟩
    intro d hd hdne
    rw [hd]
    exact fetchPath_ok_store cache key now1 d hdne
  · rintro ⟨v, hv⟩ ⟨hinv1, hinv2⟩
    by_cases hhit : ∃ e, findEntry cache key = some e ∧
        now1 - e.timestamp < ttl * 1000
    · obtain ⟨e, he, hfresh⟩ := hhit
      rw [hitCase e he hfresh] at hinv1
      simp at hinv1
    · have hmiss : findEntry cache key = none ∨
          ∃ e, findEntry cache key = some e ∧
            ttl * 1000 ≤ now1 - e.timestamp := by
        cases hfe : findEntry cache key with
        | none => exact Or.inl rfl
        | some e =>
            refine Or.inr ⟨e, rfl, ?_⟩
            by_contra hlt
            push_neg at hlt
            exact hhit ⟨e, hfe, hlt⟩
      rw [missStep hmiss] at hv hinv2
      obtain ⟨hp1, hvne⟩ := fetchPath_result_ok cache key now1 p1 v hv
      have hcache : (fetchPath cache key now1 p1).cache =
          setEntry cache key ⟨v, now1⟩ := by
        rw [hp1, fetchPath_ok_store cache key now1 v hvne]
      rw [hcache] at hinv2
      have hsecond :
          fetchCoinGeckoDataWithCache (setEntry cache key ⟨v, now1⟩) key ttl
            now2 p2 = ⟨Except.ok v, setEntry cache key ⟨v, now1⟩, false⟩ := by
        rw [fetchCoinGeckoDataWithCache.eq_def, findEntry_setEntry]
        simp only
        rw [if_pos hwin]
      rw [hsecond] at hinv2
      simp at hinv2

/-- Witness for C9: a fetch into an empty cache stores the payload, and
a second fetch on the same key within the TTL returns it without
invoking the producer. -/
theorem cache_freshness_witness :
    fetchCoinGeckoDataWithCache [] "k" 1 0 (Except.ok 7) =
      ⟨Except.ok 7, [("k", ⟨7, 0⟩)], true⟩ ∧
    fetchCoinGeckoDataWithCache [("k", ⟨7, 0⟩)] "k" 1 500 (Except.ok 8) =
      ⟨Except.ok 7, [("k", ⟨7, 0⟩)], false⟩ := by
  constructor
  · exact ((cache_freshness [] "k" 1 0 500 (Except.ok 7) (Except.ok 8)
      (by norm_num) (by norm_num)).2.1 (Or.inl rfl)).2 7 rfl (by norm_num)
  · exact (cache_freshness [("k", ⟨7, 0⟩)] "k" 1 500 600 (Except.ok 8)
      (Except.ok 9) (by norm_num) (by norm_num)).1 ⟨7, 0⟩ rfl (by norm_num)

/-! ## C10 -/

/-- C10: every successfully registered user is stored with a starting
wallet of exactly 10000. -/
theorem signup_initial_wallet (existingUser : Bool)
    (username email passwordHash : String) (u : UserRec)
    (h : signup existingUser username email passwordHash = some u) :
    u.wallet = 10000 := by
  cases existingUser with
  | true => simp [signup] at h
  | false =>
      simp [signup] at h
      rw [← h]

/-- Witness for C10 at a concrete signup. -/
theorem signup_initial_wallet_witness :
    (⟨"alice", "alice@mail.test", "hash", 10000⟩ : UserRec).wallet = 10000 :=
  signup_initial_wallet false "alice" "alice@mail.test" "hash"
    ⟨"alice", "alice@mail.test", "hash", 10000⟩ rfl

end ChainXchange

